import Mathlib

/-!
Verification of the feed-scan-and-annotate pipeline of the social-sentiment
browser extension.  The two source files are embedded shallowly:

* `content_script.js` — page-side render functions (`applySentimentSummary`,
  `applySentimentToElement`), page-side visual cache (`sentimentCache`,
  `cacheKeyFor`), post-identity extraction (`getPostId`), the scan/analyze
  state machine (`processPost` / `analyzeAndShow`) and the response callback.
* `background.js` — the message listener with its TTL cache and fetch.

JSON values carried by classifier responses are modelled by `JVal`, with
scores as rationals standing in for JS numbers.  DOM elements are modelled by
the `Element` structure holding exactly the pieces of state the scripts read
and write: the class list, the attribute map, the single summary child, the
small sentiment-UI children, anchor hrefs and the extracted post text.
JS `Map`s and attribute maps are association lists with `Map.set` semantics.

Modelling boundaries (stated where they matter): JS property access on
`null`/`undefined` throws, while our `getField` totalizes it to `none`;
theorems whose inputs could hit that case carry a no-`null` hypothesis.
`Number(...)` coercion of numeric strings and `String(...)` rendering of
non-string label values are not modelled; every theorem restricts label
fields to strings, matching the score lists the pipeline produces.
-/

namespace SocialSentiment

/-- JSON-like values as delivered by the classifier API and passed around the
content script.  `num` uses `ℚ` as the stand-in for JS numbers. -/
inductive JVal where
  | null : JVal
  | bool : Bool → JVal
  | num : ℚ → JVal
  | str : String → JVal
  | arr : List JVal → JVal
  | obj : List (String × JVal) → JVal

/-- JS truthiness of a value (NaN is not representable in `ℚ` and ignored). -/
def jsTruthy : JVal → Bool
  | .null => false
  | .bool b => b
  | .num q => q ≠ 0
  | .str s => s ≠ ""
  | .arr _ => true
  | .obj _ => true

/-- Source `Array.isArray`. -/
def isArrB : JVal → Bool
  | .arr _ => true
  | _ => false

/-- Property read `v.k`.  JS object key duplication cannot arise from
`JSON.parse` output with distinct keys; JS would throw on `null`, which this
totalization maps to `none` (theorems exclude `null` receivers where the
source would reach them). -/
def getField : JVal → String → Option JVal
  | .obj fs, k => (fs.find? (fun p => p.1 == k)).map (fun p => p.2)
  | _, _ => none

/-- ASCII lower-casing of one character, the fragment of
`String.prototype.toLowerCase` exercised by sentiment labels. -/
def jsCharLower (c : Char) : Char :=
  if c.isUpper then Char.ofNat (c.toNat + 32) else c

/-- ASCII upper-casing of one character. -/
def jsCharUpper (c : Char) : Char :=
  if c.isLower then Char.ofNat (c.toNat - 32) else c

/-- ASCII `toLowerCase`. -/
def jsToLower (s : String) : String := String.mk (s.data.map jsCharLower)

/-- ASCII `toUpperCase`. -/
def jsToUpper (s : String) : String := String.mk (s.data.map jsCharUpper)

/-- Source `String(w).toLowerCase()` for a label value; only string labels are
modelled (see module comment), and all theorems restrict to them. -/
def jsStrLower : JVal → String
  | .str s => jsToLower s
  | _ => "unmodeled-label"

/-- The numeric `score` field of an item, `none` when absent or non-numeric
(`typeof item.score === 'number'`). -/
def scoreOf (v : JVal) : Option ℚ :=
  match getField v ("score") with
  | some (.num q) => some q
  | _ => none

/-- Source `Number(x) || 0` for an optional `score` field value.  `Number(undefined)`
and non-numeric strings give `NaN`, hence `0` after `|| 0`; numeric-string
parsing is not modelled (no theorem feeds string scores). -/
def numCoerce : Option JVal → ℚ
  | some (.num q) => q
  | some (.bool true) => 1
  | _ => 0

/-- Source `b.score > a.score` — false whenever either side is `undefined`. -/
def gtScore (b a : JVal) : Bool :=
  match scoreOf b, scoreOf a with
  | some sb, some sa => sa < sb
  | _, _ => false

/-- One step of `labelScores.reduce((a, b) => (b.score > a.score ? b : a), ...)`. -/
def redStep (a b : JVal) : JVal := if gtScore b a then b else a

/-- The reduce seed `{score: -1}`. -/
def initAcc : JVal := .obj [(("score"), .num (-1))]

/-- Source `labelScores.reduce((a, b) => (b.score > a.score ? b : a), {score: -1})`. -/
def bestOf (ls : List JVal) : JVal := ls.foldl redStep initAcc

/-- Source `(best && best.label) ? String(best.label).toLowerCase() : 'neutral'`. -/
def labelOfBest (best : JVal) : String :=
  if jsTruthy best then
    match getField best ("label") with
    | some w => if jsTruthy w then jsStrLower w else "neutral"
    | none => "neutral"
  else "neutral"

def bestLabelOfList (ls : List JVal) : String := labelOfBest (bestOf ls)

/-- Source `Math.round(q)`: round half toward positive infinity. -/
def roundJS (q : ℚ) : ℤ := Int.floor (q + 1/2)

/-- Source `q.toFixed(0)` as an integer: round half away from zero (only exercised at
`q = 0` by the source, for the error marker). -/
def jsToFixed0 (q : ℚ) : ℤ :=
  if 0 ≤ q then Int.floor (q + 1/2) else -Int.floor (-q + 1/2)

/-- Source `Math.round(best.score * 100)` rendered through a template literal:
an `undefined` score renders as `NaN` (never reached by the pipeline since the
reduce seed has a score). -/
def pctStrOf : Option ℚ → String
  | some q => toString (roundJS (q * 100))
  | none => "NaN"

/-- CSS class-name and attribute-name constants of the content script. -/
def psPos : String := "ps-sentiment-positive"

def psNeut : String := "ps-sentiment-neutral"

def psNeg : String := "ps-sentiment-negative"

def borderCls : String := "ps-sentiment-border"

def contCls : String := "ps-sentiment-container"

def uiCls : String := "ps-sentiment-ui"

def summaryCls : String := "ps-sentiment-summary"

def markerAttr : String := "data-ps-sentiment"

def labelAttr : String := "data-ps-sentiment-label"

def threeClassList : List String := [psPos, psNeut, psNeg]

def fourClassList : List String := [psPos, psNeut, psNeg, borderCls]

def threeLabels : List String := ["negative", "neutral", "positive"]

/-- Source `classMap[label] || classMap.neutral`. -/
def classFor (label : String) : String :=
  if label = "positive" then psPos
  else if label = "neutral" then psNeut
  else if label = "negative" then psNeg
  else psNeut

/-- Source `displayMap[l]` interpolated into a template literal: keys outside the
three labels interpolate `undefined`. -/
def dispOf (l : String) : String :=
  if l = "negative" then "NEGATIVE"
  else if l = "neutral" then "NEUTRAL"
  else if l = "positive" then "POSITIVE"
  else "undefined"

/-- Source `displayMap[String(label).toLowerCase()] || String(label).toUpperCase()`
from `createSentimentElement`. -/
def dispOrUpper (label : String) : String :=
  let l := jsToLower label
  if l = "negative" then "NEGATIVE"
  else if l = "neutral" then "NEUTRAL"
  else if l = "positive" then "POSITIVE"
  else jsToUpper label

/-- Source `classList.add c`: append if absent. -/
def classAdd (cs : List String) (c : String) : List String :=
  if c ∈ cs then cs else cs ++ [c]

/-- Source `classList.remove r₁ … rₙ`: drop every listed class. -/
def classRemoveMany (cs : List String) (rs : List String) : List String :=
  cs.filter (fun c => !(rs.contains c))

/-- Source `Map.has` on an association list. -/
def hasKey {α : Type} : List (String × α) → String → Bool
  | [], _ => false
  | p :: t, k => p.1 == k || hasKey t k

/-- Replace the value stored under `k` in place (keys and order unchanged). -/
def setAll {α : Type} : List (String × α) → String → α → List (String × α)
  | [], _, _ => []
  | p :: t, k, v => (if p.1 = k then (k, v) else p) :: setAll t k v

/-- Source `Map.set` / `setAttribute` on an association list: replace in place when
the key is present, append otherwise. -/
def assocSet {α : Type} (m : List (String × α)) (k : String) (v : α) :
    List (String × α) :=
  if hasKey m k then setAll m k v else m ++ [(k, v)]

/-- Source `Map.get` / `getAttribute` on an association list (`none` = absent). -/
def lookupA {α : Type} : List (String × α) → String → Option α
  | [], _ => none
  | p :: t, k => if p.1 = k then some p.2 else lookupA t k

/-- The `.ps-sentiment-summary` child created by `applySentimentSummary`. -/
structure SummaryNode where
  classes : List String
  attrs : List (String × String)
  text : String
  deriving DecidableEq

/-- A small sentiment-UI node from `createSentimentElement`. -/
structure UiNode where
  classes : List String
  attrs : List (String × String)
  text : String
  styleBg : Option String
  deriving DecidableEq

/-- The slice of a post element's DOM state that the content script reads or
writes: class list, attributes, the summary child, the `.ps-sentiment-ui`
children in document order, anchor `href`s in document order, and the text
`extractTextFromPost` yields for it (the DOM text query is abstracted to a
field). -/
structure Element where
  classes : List String
  attrs : List (String × String)
  summary : Option SummaryNode
  uiChildren : List UiNode
  anchors : List String
  tweetText : String
  deriving DecidableEq

def getAttrE (el : Element) (k : String) : Option String := lookupA el.attrs k

def elSetAttr (el : Element) (k v : String) : Element :=
  { el with attrs := assocSet el.attrs k v }

/-- Score map `{negative: 0, neutral: 0, positive: 0}` (only these three keys
are ever read back). -/
structure SMap where
  neg : ℚ
  neut : ℚ
  pos : ℚ

/-- One `forEach` step of the score-map construction:
`if (s && s.label) scoreMap[String(s.label).toLowerCase()] = Number(s.score) || 0`.
Writes to keys other than the three labels land on object keys that are never
read back, hence drop out of the model. -/
def smUpd (m : SMap) (s : JVal) : SMap :=
  match getField s ("label") with
  | some w =>
    if jsTruthy s && jsTruthy w then
      let l := jsStrLower w
      let q := numCoerce (getField s ("score"))
      if l = "negative" then { m with neg := q }
      else if l = "neutral" then { m with neut := q }
      else if l = "positive" then { m with pos := q }
      else m
    else m
  | none => m

def scoreMapOf (ls : List JVal) : SMap := ls.foldl smUpd ⟨0, 0, 0⟩

/-- Source `scoreMap[l] || 0` for the labels that are read back. -/
def smGet (m : SMap) (l : String) : ℚ :=
  if l = "negative" then m.neg
  else if l = "neutral" then m.neut
  else if l = "positive" then m.pos
  else 0

/-- Source `allLabels.filter(l => l !== bestLabel)`. -/
def otherLabelsOf (b : String) : List String := threeLabels.filter (fun l => l != b)

/-- Stable insertion preserving earlier elements on ties; together with
`sortDesc` this is the stable `.sort((a, b) => b.score - a.score)`. -/
def insDesc (x : String × ℚ) : List (String × ℚ) → List (String × ℚ)
  | [] => [x]
  | y :: t => if y.2 ≤ x.2 then x :: y :: t else y :: insDesc x t

def sortDesc : List (String × ℚ) → List (String × ℚ)
  | [] => []
  | x :: t => insDesc x (sortDesc t)

/-- The two (in general, remaining) non-winning labels sorted descending by
their score-map value. -/
def sortedOtherLabelsOf (ls : List JVal) : List String :=
  (sortDesc ((otherLabelsOf (bestLabelOfList ls)).map
    (fun l => (l, smGet (scoreMapOf ls) l)))).map (fun p => p.1)

/-- One rendered entry ``​`${displayMap[l]} ${Math.round((scoreMap[l] || 0) * 100)}%`​``. -/
def otherEntry (ls : List JVal) (l : String) : String :=
  dispOf l ++ " " ++ toString (roundJS (smGet (scoreMapOf ls) l * 100)) ++ "%"

/-- Source `Array.prototype.join`. -/
def sepJoin (sep : String) : List String → String
  | [] => ""
  | [x] => x
  | x :: y :: t => x ++ sep ++ sepJoin sep (y :: t)

def otherStrOf (ls : List JVal) : String :=
  sepJoin (" • ") ((sortedOtherLabelsOf ls).map (otherEntry ls))

def bestPctStrOf (ls : List JVal) : String := pctStrOf (scoreOf (bestOf ls))

/-- Source `summary.innerText`. -/
def summaryTextOf (ls : List JVal) : String :=
  dispOf (bestLabelOfList ls) ++ " " ++ bestPctStrOf ls ++ "%\n" ++ otherStrOf ls

/-- Source `summary.title` (fixed negative/neutral/positive order). -/
def titleTextOf (ls : List JVal) : String :=
  let sm := scoreMapOf ls
  dispOf (bestLabelOfList ls) ++ " " ++ bestPctStrOf ls ++ "%\n" ++
    "NEGATIVE: " ++ toString (roundJS (sm.neg * 100)) ++ "%\n" ++
    "NEUTRAL: " ++ toString (roundJS (sm.neut * 100)) ++ "%\n" ++
    "POSITIVE: " ++ toString (roundJS (sm.pos * 100)) ++ "%"

/-- Class rewrite applied to the summary node: remove the three sentiment
classes, then add `ps-sentiment-${bestLabel}`. -/
def summaryClassesOf (cs : List String) (b : String) : List String :=
  classAdd (classRemoveMany cs threeClassList) ("ps-sentiment-" ++ b)

def summaryAttrsOf (a0 : List (String × String)) (ls : List JVal) :
    List (String × String) :=
  assocSet (assocSet a0 ("data-label") (bestLabelOfList ls)) ("title") (titleTextOf ls)

def initSummary : SummaryNode := ⟨[summaryCls], [], ""⟩

def summaryNodeOf (s0 : SummaryNode) (ls : List JVal) : SummaryNode :=
  ⟨summaryClassesOf s0.classes (bestLabelOfList ls), summaryAttrsOf s0.attrs ls,
    summaryTextOf ls⟩

/-- Body of `applySentimentSummary` after its array guard: ensure the
container class, find or create the summary child, and rewrite it. -/
def summaryApply (el : Element) (ls : List JVal) : Element :=
  { el with
    classes := classAdd el.classes contCls,
    summary := some (summaryNodeOf (el.summary.getD initSummary) ls) }

/-- Source `applySentimentSummary(articleEl, labelScores)` including the
`!Array.isArray(labelScores) || labelScores.length === 0` guard. -/
def applySentimentSummary (el : Element) : JVal → Element
  | .arr (x :: xs) => summaryApply el (x :: xs)
  | _ => el

/-- Class rewrite applied to the article element: remove the three sentiment
classes and the border class, then add container, border and the winner's
class. -/
def elementClassesOf (cs : List String) (b : String) : List String :=
  classAdd (classAdd (classAdd (classRemoveMany cs fourClassList) contCls)
    borderCls) (classFor b)

/-- Body of `applySentimentToElement` after its guard. -/
def elementApply (el : Element) (ls : List JVal) : Element :=
  summaryApply
    (elSetAttr { el with classes := elementClassesOf el.classes (bestLabelOfList ls) }
      labelAttr (bestLabelOfList ls)) ls

/-- Source `applySentimentToElement(articleEl, labelScores)` with its guard. -/
def applySentimentToElement (el : Element) : JVal → Element
  | .arr (x :: xs) => elementApply el (x :: xs)
  | _ => el

/-- Source `createSentimentElement(label, score)`. -/
def createSentimentUi (label : String) (score : ℚ) : UiNode :=
  let pctS := toString (jsToFixed0 (score * 100))
  let disp := dispOrUpper label
  { classes := [uiCls, "ps-inline"],
    attrs := [(("title"), disp ++ " " ++ pctS ++ "%"), (("data-label"), label)],
    text := disp ++ " " ++ pctS ++ "%",
    styleBg := none }

/-- The error marker: `createSentimentElement('ERR', 0)` with
`style.background = '#777'`. -/
def errUiNode : UiNode := { createSentimentUi ("ERR") 0 with styleBg := some ("#777") }

def appendErrUi (el : Element) : Element :=
  { el with uiChildren := el.uiChildren ++ [errUiNode] }

/-- Source `querySelector('.ps-sentiment-ui')` + `existing.remove()`: drops the first
sentiment-UI child when present. -/
def removeFirstUi (el : Element) : Element :=
  match el.uiChildren with
  | [] => el
  | _ :: t => { el with uiChildren := t }

/-- Source `cacheKeyFor(postId, text)` of the page-side visual cache: `id:${postId}`
for a truthy id, else `text:${(text || '').slice(0, 200)}`. -/
def cacheKeyFor (postId : Option String) (text : String) : String :=
  match postId with
  | some p => if p = "" then "text:" ++ text.take 200 else "id:" ++ p
  | none => "text:" ++ text.take 200

/-- The page-side visual cache `sentimentCache` (no TTL, key → labelScores). -/
def PageCache : Type := List (String × List JVal)

def pagePut (c : PageCache) (k : String) (ls : List JVal) : PageCache :=
  assocSet c k ls

def pageGet (c : PageCache) (k : String) : Option (List JVal) := lookupA c k

/-- Source `a :: as` starts with `b :: bs`. -/
def startsWithChars : List Char → List Char → Bool
  | _, [] => true
  | [], _ :: _ => false
  | a :: as, b :: bs => a == b && startsWithChars as bs

/-- Substring containment at the character level. -/
def hasSubChars (hay needle : List Char) : Bool :=
  match hay with
  | [] => needle.isEmpty
  | _ :: t => startsWithChars hay needle || hasSubChars t needle

def hasSubstr (hay needle : String) : Bool := hasSubChars hay.data needle.data

/-- The regex `/status\/(\d+)/`: first position where `status/` is followed by
at least one digit, capturing the maximal digit run. -/
def findStatusId : List Char → Option (List Char)
  | [] => none
  | c :: t =>
    if startsWithChars (c :: t) (("status/").data) then
      if (((c :: t).drop 7).takeWhile Char.isDigit).isEmpty then findStatusId t
      else some (((c :: t).drop 7).takeWhile Char.isDigit)
    else findStatusId t

/-- Source `getAttribute(...) || null`. -/
def jsAttrOrNull : Option String → Option String
  | some s => if s = "" then none else some s
  | none => none

/-- Source `getPostId(articleEl)`: numeric id of the first `/status/` permalink,
falling back to `data-testid`, else `null`. -/
def getPostId (el : Element) : Option String :=
  match el.anchors.find? (fun h => hasSubstr h ("/status/")) with
  | some href =>
    match findStatusId href.data with
    | some ds => some (String.mk ds)
    | none => jsAttrOrNull (getAttrE el ("data-testid"))
  | none => jsAttrOrNull (getAttrE el ("data-testid"))

/-- Actions a scan pass performs on a post element, in order. -/
inductive ScanAct where
  | setPending : ScanAct
  | sendReq : ScanAct
  deriving DecidableEq

/-- Lines 143–151 of `analyzeAndShow`: skip when `pending` or `done`, else
mark `pending` and only then issue the request. -/
def analyzeAndShowStep (el : Element) : Element × List ScanAct :=
  if getAttrE el markerAttr = some ("pending") ∨ getAttrE el markerAttr = some ("done")
  then (el, [])
  else (elSetAttr el markerAttr ("pending"), [.setPending, .sendReq])

/-- Source `processPost(articleEl)`: empty text skips; a page-cache hit re-applies the
stored scores and marks `done` without a request; a `done` marker skips;
otherwise `analyzeAndShow` runs. -/
def processPostStep (cache : PageCache) (el : Element) : Element × List ScanAct :=
  if el.tweetText = "" then (el, [])
  else
    match pageGet cache (cacheKeyFor (getPostId el) el.tweetText) with
    | some entry =>
      (elSetAttr (applySentimentToElement el (.arr entry)) markerAttr ("done"), [])
    | none =>
      if getAttrE el markerAttr = some ("done") then (el, [])
      else analyzeAndShowStep el

/-- Response of the background listener over the message channel. -/
inductive BgResp where
  | res : JVal → Bool → BgResp
  | err : String → BgResp

/-- Source `result.flat()` (one level). -/
def jsFlat (xs : List JVal) : List JVal :=
  xs.foldr (fun x acc => match x with | .arr ys => ys ++ acc | _ => x :: acc) []

/-- Source `item && typeof item.score === 'number'`. -/
def keepItem (v : JVal) : Bool :=
  jsTruthy v &&
    match getField v ("score") with
    | some (.num _) => true
    | _ => false

/-- Flatten-one-level-then-filter normalization of an arbitrary response
payload, as performed by the callback before best-label selection. -/
def afterNorm : JVal → List JVal
  | .arr (x :: xs) =>
    (if isArrB x then jsFlat (x :: xs) else x :: xs).filter keepItem
  | _ => []

/-- Tail of the `analyzeAndShow` callback once a normalized score list is in
hand: empty list → `done` with no annotation; otherwise save to the page
cache, drop any stale inline UI, render, and mark `done`. -/
def renderScores (el : Element) (cache : PageCache) (pid : Option String)
    (text : String) : List JVal → Element × PageCache
  | [] => (elSetAttr el markerAttr ("done"), cache)
  | y :: ys =>
    (elSetAttr (applySentimentToElement (removeFirstUi el) (.arr (y :: ys)))
      markerAttr ("done"),
     pagePut cache (cacheKeyFor pid text) (y :: ys))

/-- The `analyzeAndShow` response callback (lines 151–219): missing response
or `resp.error` → error marker and `done`; non-array or empty result → `done`;
else flatten one level when the first item is an array, filter items with
numeric scores, and continue with `renderScores`. -/
def handleAnalyzeResponse (el : Element) (cache : PageCache) (pid : Option String)
    (text : String) : Option BgResp → Element × PageCache
  | none => (elSetAttr (appendErrUi el) markerAttr ("done"), cache)
  | some (.err _) => (elSetAttr (appendErrUi el) markerAttr ("done"), cache)
  | some (.res r _) =>
    match r with
    | .arr (x :: xs) =>
      renderScores el cache pid text
        ((if isArrB x then jsFlat (x :: xs) else x :: xs).filter keepItem)
    | _ => (elSetAttr el markerAttr ("done"), cache)

/-- An entry of the background cache: `{ts, result}`. -/
structure BgEntry where
  ts : ℤ
  result : JVal

def BgCache : Type := List (String × BgEntry)

/-- Source `CACHE_TTL_MS = 1000 * 60 * 2`. -/
def ttlMs : ℤ := 1000 * 60 * 2

/-- The background cache key `` `${postId || ''}:${text.slice(0, 200)}` ``. -/
def bgKey (pid : Option String) (text : String) : String :=
  pid.getD ("") ++ ":" ++ text.take 200

/-- Lazy TTL lookup (lines 24–30): absent, or present but older than the TTL,
reads as a miss. -/
def bgGet (c : BgCache) (k : String) (now : ℤ) : Option JVal :=
  match lookupA c k with
  | some e => if now - e.ts < ttlMs then some e.result else none
  | none => none

/-- An inter-context `analyze` message `{type, text, postId}`; absent text is
identified with the empty string (both are falsy under `!text`). -/
structure Msg where
  type : String
  text : String
  postId : Option String

/-- Outcome of the single `fetch` a cache-missing request performs. -/
inductive NetOut where
  | ok : JVal → NetOut
  | httpErr : ℕ → String → NetOut
  | transportErr : String → NetOut

/-- The fetch continuation: 2xx stores `{ts: now, result}` and responds with
the JSON; a non-2xx throws `Error(`HTTP ${status}: ${body}`)` whose
stringification is returned as `{error}`; a transport rejection is returned
stringified.  The third component records that a network call was issued. -/
def bgFetch (cache : BgCache) (now : ℤ) (key : String) :
    NetOut → Option BgResp × BgCache × Bool
  | .ok j => (some (.res j false), assocSet cache key ⟨now, j⟩, true)
  | .httpErr st body =>
    (some (.err ("Error: HTTP " ++ toString st ++ ": " ++ body)), cache, true)
  | .transportErr s => (some (.err s), cache, true)

/-- The background `onMessage` listener: ignore non-`analyze` messages, reject
empty text with no network call, serve fresh cache entries, else fetch. -/
def handleMessage (cache : BgCache) (now : ℤ) (msg : Msg) (net : NetOut) :
    Option BgResp × BgCache × Bool :=
  if msg.type ≠ "analyze" then (none, cache, false)
  else if msg.text = "" then (some (.err ("No text provided")), cache, false)
  else
    match lookupA cache (bgKey msg.postId msg.text) with
    | some e =>
      if now - e.ts < ttlMs then (some (.res e.result true), cache, false)
      else bgFetch cache now (bgKey msg.postId msg.text) net
    | none => bgFetch cache now (bgKey msg.postId msg.text) net

/-- The key `k` is present and every binding of `k` carries the value `v`. -/
def keyIs {α : Type} (m : List (String × α)) (k : String) (v : α) : Prop :=
  hasKey m k = true ∧ ∀ p ∈ m, p.1 = k → p.2 = v

/-- The numeric score with `undefined` read as `0` (used only under
hypotheses that make the score defined). -/
def scq (v : JVal) : ℚ := (scoreOf v).getD 0

/-! ### Demo values used by witnesses -/

/-- A minimal post element. -/
def demoEl : Element := ⟨[], [], none, [], [], "hi"⟩

/-- A well-formed score item `{label: l, score: q}`. -/
def mkItem (l : String) (q : ℚ) : JVal :=
  .obj [(("label"), .str l), (("score"), .num q)]

/-- A well-formed score item `{label: "positive", score: 0.9}`. -/
def demoItem : JVal := mkItem ("positive") (9/10)

/-- The guard `Array.isArray(labelScores) && labelScores.length !== 0`. -/
def isNonemptyArr : JVal → Bool
  | .arr (_ :: _) => true
  | _ => false

/-- Score lists whose items avoid `null` (JS field access on a `null` item
would throw inside the reduce; the pipeline's filter never passes one). -/
def noNullItems : JVal → Prop
  | .arr ls => JVal.null ∉ ls
  | _ => True

/-! ### Class-list lemmas -/

lemma mem_classAdd {cs : List String} {c a : String} :
    a ∈ classAdd cs c ↔ a ∈ cs ∨ a = c := by
  unfold classAdd
  split
  · rename_i h
    constructor
    · exact Or.inl
    · rintro (h1 | rfl)
      · exact h1
      · exact h
  · simp [List.mem_append]

lemma classAdd_of_mem {cs : List String} {c : String} (h : c ∈ cs) :
    classAdd cs c = cs := by
  unfold classAdd
  exact if_pos h

lemma classAdd_of_not_mem {cs : List String} {c : String} (h : c ∉ cs) :
    classAdd cs c = cs ++ [c] := by
  unfold classAdd
  exact if_neg h

lemma self_mem_classAdd (cs : List String) (c : String) : c ∈ classAdd cs c :=
  mem_classAdd.mpr (Or.inr rfl)

lemma classRemoveMany_append (a b rs : List String) :
    classRemoveMany (a ++ b) rs = classRemoveMany a rs ++ classRemoveMany b rs :=
  List.filter_append a b

lemma mem_classRemoveMany {cs rs : List String} {a : String} :
    a ∈ classRemoveMany cs rs ↔ a ∈ cs ∧ a ∉ rs := by
  unfold classRemoveMany
  simp [List.mem_filter, List.contains]

lemma classRemoveMany_eq_self {cs rs : List String} (h : ∀ a ∈ cs, a ∉ rs) :
    classRemoveMany cs rs = cs := by
  unfold classRemoveMany
  refine List.filter_eq_self.mpr ?_
  intro a ha
  simpa [List.contains] using h a ha

lemma not_mem_classRemoveMany {cs rs : List String} {a : String} (h : a ∈ rs) :
    a ∉ classRemoveMany cs rs := by
  intro hmem
  exact (mem_classRemoveMany.mp hmem).2 h

lemma forall_not_mem_of_classRemoveMany {cs rs : List String} :
    ∀ a ∈ classRemoveMany cs rs, a ∉ rs := by
  intro a ha
  exact (mem_classRemoveMany.mp ha).2

lemma classRemoveMany_idem (cs rs : List String) :
    classRemoveMany (classRemoveMany cs rs) rs = classRemoveMany cs rs :=
  classRemoveMany_eq_self forall_not_mem_of_classRemoveMany

/-! ### Association-list (`Map.set` / `setAttribute`) lemmas -/

lemma not_hasKey_forall {α : Type} {k : String} :
    ∀ (m : List (String × α)), ¬ hasKey m k = true → ∀ p ∈ m, p.1 ≠ k := by
  intro m
  induction m with
  | nil => intro _ p hp; simp at hp
  | cons q t ih =>
    intro h p hp
    simp only [hasKey, Bool.or_eq_true, beq_iff_eq] at h
    push_neg at h
    rcases List.mem_cons.mp hp with rfl | hp2
    · exact h.1
    · exact ih (by simpa [hasKey] using h.2) p hp2

lemma hasKey_setAll {α : Type} (m : List (String × α)) (k2 : String) (v2 : α)
    (k : String) : hasKey (setAll m k2 v2) k = hasKey m k := by
  induction m with
  | nil => rfl
  | cons p t ih =>
    by_cases hp : p.1 = k2
    · simp [setAll, hasKey, hp, ih]
    · simp [setAll, hasKey, hp, ih]

lemma hasKey_append {α : Type} (a b : List (String × α)) (k : String) :
    hasKey (a ++ b) k = (hasKey a k || hasKey b k) := by
  induction a with
  | nil => simp [hasKey]
  | cons p t ih => simp [hasKey, ih, Bool.or_assoc]

lemma lookupA_setAll_self {α : Type} {k : String} (v : α) :
    ∀ (m : List (String × α)), hasKey m k = true →
      lookupA (setAll m k v) k = some v := by
  intro m
  induction m with
  | nil => intro h; simp [hasKey] at h
  | cons p t ih =>
    intro h
    by_cases hp : p.1 = k
    · simp [setAll, hp, lookupA]
    · simp only [hasKey, Bool.or_eq_true, beq_iff_eq] at h
      rcases h with h1 | h2
      · exact absurd h1 hp
      · simp only [setAll, if_neg hp, lookupA, hp, if_false]
        exact ih h2

lemma lookupA_append_one {α : Type} (k k2 : String) (v : α) (h : k2 ≠ k) :
    ∀ (m : List (String × α)), lookupA (m ++ [(k, v)]) k2 = lookupA m k2 := by
  intro m
  induction m with
  | nil => simp [lookupA, Ne.symm h]
  | cons p t ih =>
    by_cases hp2 : p.1 = k2
    · simp [lookupA, hp2]
    · simp only [List.cons_append, lookupA, if_neg hp2]
      exact ih

lemma lookupA_append_self {α : Type} (k : String) (v : α) :
    ∀ (m : List (String × α)), ¬ hasKey m k = true →
      lookupA (m ++ [(k, v)]) k = some v := by
  intro m
  induction m with
  | nil => intro _; simp [lookupA]
  | cons p t ih =>
    intro h
    simp only [hasKey, Bool.or_eq_true, beq_iff_eq] at h
    push_neg at h
    simp only [List.cons_append, lookupA, if_neg h.1]
    exact ih h.2

lemma lookupA_assocSet_self {α : Type} (m : List (String × α)) (k : String) (v : α) :
    lookupA (assocSet m k v) k = some v := by
  unfold assocSet
  split
  · exact lookupA_setAll_self v m (by assumption)
  · exact lookupA_append_self k v m (by assumption)

lemma lookupA_setAll_ne {α : Type} (k k2 : String) (v : α) (h : k2 ≠ k) :
    ∀ (m : List (String × α)), lookupA (setAll m k v) k2 = lookupA m k2 := by
  intro m
  induction m with
  | nil => rfl
  | cons p t ih =>
    by_cases hp : p.1 = k
    · have hne : ¬(k = k2) := Ne.symm h
      simp only [setAll, if_pos hp, lookupA, hne, if_false]
      rw [if_neg (hp ▸ hne), ih]
    · by_cases hp2 : p.1 = k2
      · simp only [setAll, if_neg hp]
        simp [lookupA, hp2]
      · simp [setAll, hp, lookupA, hp2, ih]

lemma lookupA_assocSet_ne {α : Type} (m : List (String × α)) (k k2 : String) (v : α)
    (h : k2 ≠ k) : lookupA (assocSet m k v) k2 = lookupA m k2 := by
  unfold assocSet
  split
  · exact lookupA_setAll_ne k k2 v h m
  · exact lookupA_append_one k k2 v h m

lemma setAll_values_self {α : Type} (k : String) (v : α) :
    ∀ (m : List (String × α)), ∀ p ∈ setAll m k v, p.1 = k → p.2 = v := by
  intro m
  induction m with
  | nil => intro p hp; simp [setAll] at hp
  | cons q t ih =>
    intro p hp hpk
    simp only [setAll] at hp
    rcases List.mem_cons.mp hp with rfl | hp2
    · by_cases hq : q.1 = k
      · simp [if_pos hq]
      · rw [if_neg hq] at hpk
        exact absurd hpk hq
    · exact ih p hp2 hpk

lemma setAll_values_preserve {α : Type} {k k2 : String} {v : α} (v2 : α)
    (hne : k ≠ k2) : ∀ (t : List (String × α)), (∀ p ∈ t, p.1 = k → p.2 = v) →
      ∀ p ∈ setAll t k2 v2, p.1 = k → p.2 = v := by
  intro t
  induction t with
  | nil => intro _ p hp; simp [setAll] at hp
  | cons q s ih =>
    intro hall p hp hpk
    simp only [setAll] at hp
    rcases List.mem_cons.mp hp with rfl | hp2
    · by_cases hq : q.1 = k2
      · rw [if_pos hq] at hpk
        exact absurd hpk.symm (by simpa using hne)
      · rw [if_neg hq] at hpk ⊢
        exact hall q (List.mem_cons_self q s) hpk
    · exact ih (fun r hr => hall r (List.mem_cons_of_mem q hr)) p hp2 hpk

lemma keyIs_assocSet_self {α : Type} (m : List (String × α)) (k : String) (v : α) :
    keyIs (assocSet m k v) k v := by
  unfold assocSet
  split
  · rename_i h
    exact ⟨(hasKey_setAll m k v k).symm ▸ h, setAll_values_self k v m⟩
  · rename_i h
    constructor
    · rw [hasKey_append]
      simp [hasKey]
    · intro p hp hpk
      rcases List.mem_append.mp hp with hp1 | hp2
      · exact absurd hpk (not_hasKey_forall m h p hp1)
      · rw [List.mem_singleton.mp hp2]

lemma keyIs_assocSet_ne {α : Type} {m : List (String × α)} {k : String} {v : α}
    (k2 : String) (v2 : α) (h : keyIs m k v) (hne : k ≠ k2) :
    keyIs (assocSet m k2 v2) k v := by
  obtain ⟨hk, hall⟩ := h
  unfold assocSet
  split
  · exact ⟨(hasKey_setAll m k2 v2 k).symm ▸ hk, setAll_values_preserve v2 hne m hall⟩
  · constructor
    · rw [hasKey_append]
      simp [hk]
    · intro p hp hpk
      rcases List.mem_append.mp hp with hp1 | hp2
      · exact hall p hp1 hpk
      · rw [List.mem_singleton.mp hp2] at hpk
        exact absurd hpk.symm hne

lemma setAll_of_values {α : Type} {k : String} {v : α} :
    ∀ (m : List (String × α)), (∀ p ∈ m, p.1 = k → p.2 = v) → setAll m k v = m := by
  intro m
  induction m with
  | nil => intro _; rfl
  | cons p t ih =>
    intro hall
    simp only [setAll]
    by_cases hp : p.1 = k
    · rw [if_pos hp, ih (fun r hr => hall r (List.mem_cons_of_mem p hr))]
      have hv := hall p (List.mem_cons_self p t) hp
      rw [show (k, v) = p from Prod.ext hp.symm hv.symm]
    · rw [if_neg hp, ih (fun r hr => hall r (List.mem_cons_of_mem p hr))]

lemma assocSet_of_keyIs {α : Type} {m : List (String × α)} {k : String} {v : α}
    (h : keyIs m k v) : assocSet m k v = m := by
  unfold assocSet
  rw [if_pos h.1]
  exact setAll_of_values m h.2

lemma assocSet_idem {α : Type} (m : List (String × α)) (k : String) (v : α) :
    assocSet (assocSet m k v) k v = assocSet m k v :=
  assocSet_of_keyIs (keyIs_assocSet_self m k v)

/-! ### Idempotence of the render class rewrites -/

lemma classFor_mem_three (b : String) : classFor b ∈ threeClassList := by
  unfold classFor
  split_ifs <;> simp [threeClassList]

lemma three_subset_four : ∀ c ∈ threeClassList, c ∈ fourClassList := by
  intro c hc
  simp only [threeClassList, fourClassList, List.mem_cons] at hc ⊢
  tauto

lemma classFor_ne_cont (b : String) : classFor b ≠ contCls := by
  unfold classFor
  split_ifs <;> decide

lemma classFor_ne_border (b : String) : classFor b ≠ borderCls := by
  unfold classFor
  split_ifs <;> decide

lemma border_not_mem_rm4 (cs : List String) :
    borderCls ∉ classRemoveMany cs fourClassList :=
  not_mem_classRemoveMany (by decide)

lemma sent_not_mem_rm4 (cs : List String) (b : String) :
    classFor b ∉ classRemoveMany cs fourClassList :=
  not_mem_classRemoveMany (three_subset_four _ (classFor_mem_three b))

lemma cont_not_in_four : contCls ∉ fourClassList := by decide

lemma elementClassesOf_eq (cs : List String) (b : String) :
    elementClassesOf cs b =
      classAdd (classRemoveMany cs fourClassList) contCls ++
        [borderCls, classFor b] := by
  unfold elementClassesOf
  have hb : borderCls ∉ classAdd (classRemoveMany cs fourClassList) contCls := by
    intro h
    rcases mem_classAdd.mp h with h1 | h2
    · exact border_not_mem_rm4 cs h1
    · exact absurd h2 (by decide)
  rw [classAdd_of_not_mem hb]
  have hs : classFor b ∉
      classAdd (classRemoveMany cs fourClassList) contCls ++ [borderCls] := by
    intro h
    rcases List.mem_append.mp h with h1 | h2
    · rcases mem_classAdd.mp h1 with h3 | h4
      · exact sent_not_mem_rm4 cs b h3
      · exact classFor_ne_cont b h4
    · exact classFor_ne_border b (List.mem_singleton.mp h2)
  rw [classAdd_of_not_mem hs, List.append_assoc]
  rfl

lemma rm4_classAdd_cont (cs : List String) :
    classRemoveMany (classAdd (classRemoveMany cs fourClassList) contCls)
      fourClassList = classAdd (classRemoveMany cs fourClassList) contCls := by
  by_cases hc : contCls ∈ classRemoveMany cs fourClassList
  · rw [classAdd_of_mem hc, classRemoveMany_idem]
  · rw [classAdd_of_not_mem hc, classRemoveMany_append, classRemoveMany_idem]
    have h1 : classRemoveMany [contCls] fourClassList = [contCls] :=
      classRemoveMany_eq_self (by intro a ha; rw [List.mem_singleton.mp ha]; decide)
    rw [h1]

lemma cont_mem_elementClassesOf (cs : List String) (b : String) :
    contCls ∈ elementClassesOf cs b := by
  unfold elementClassesOf
  exact mem_classAdd.mpr (Or.inl (mem_classAdd.mpr (Or.inl
    (self_mem_classAdd _ _))))

lemma elementClassesOf_idem (cs : List String) (b : String) :
    elementClassesOf (elementClassesOf cs b) b = elementClassesOf cs b := by
  rw [elementClassesOf_eq cs b]
  unfold elementClassesOf
  rw [classRemoveMany_append, rm4_classAdd_cont]
  have h0 : classRemoveMany [borderCls, classFor b] fourClassList = [] := by
    unfold classRemoveMany
    rw [List.filter_eq_nil_iff]
    intro a ha
    rcases List.mem_cons.mp ha with rfl | ha2
    · simp [List.contains, fourClassList, borderCls]
    · rw [List.mem_singleton.mp ha2]
      have := three_subset_four _ (classFor_mem_three b)
      simp only [Bool.not_eq_true]
      simpa [List.contains] using this
  rw [h0, List.append_nil]
  rw [classAdd_of_mem (self_mem_classAdd _ _)]
  have hb : borderCls ∉ classAdd (classRemoveMany cs fourClassList) contCls := by
    intro h
    rcases mem_classAdd.mp h with h1 | h2
    · exact border_not_mem_rm4 cs h1
    · exact absurd h2 (by decide)
  rw [classAdd_of_not_mem hb]
  have hs : classFor b ∉
      classAdd (classRemoveMany cs fourClassList) contCls ++ [borderCls] := by
    intro h
    rcases List.mem_append.mp h with h1 | h2
    · rcases mem_classAdd.mp h1 with h3 | h4
      · exact sent_not_mem_rm4 cs b h3
      · exact classFor_ne_cont b h4
    · exact classFor_ne_border b (List.mem_singleton.mp h2)
  rw [classAdd_of_not_mem hs, List.append_assoc]
  rfl

lemma summaryClassesOf_idem (cs : List String) (b : String) :
    summaryClassesOf (summaryClassesOf cs b) b = summaryClassesOf cs b := by
  unfold summaryClassesOf
  by_cases hc : ("ps-sentiment-" ++ b) ∈ threeClassList
  · have hcD : ("ps-sentiment-" ++ b) ∉ classRemoveMany cs threeClassList :=
      not_mem_classRemoveMany hc
    rw [classAdd_of_not_mem hcD, classRemoveMany_append, classRemoveMany_idem]
    have h0 : classRemoveMany [("ps-sentiment-" ++ b)] threeClassList = [] := by
      unfold classRemoveMany
      rw [List.filter_eq_nil_iff]
      intro a ha
      rw [List.mem_singleton.mp ha]
      simp only [Bool.not_eq_true]
      simpa [List.contains] using hc
    rw [h0, List.append_nil, classAdd_of_not_mem hcD]
  · by_cases hcD : ("ps-sentiment-" ++ b) ∈ classRemoveMany cs threeClassList
    · rw [classAdd_of_mem hcD, classRemoveMany_idem, classAdd_of_mem hcD]
    · rw [classAdd_of_not_mem hcD, classRemoveMany_append, classRemoveMany_idem]
      have h0 : classRemoveMany [("ps-sentiment-" ++ b)] threeClassList =
          [("ps-sentiment-" ++ b)] :=
        classRemoveMany_eq_self (by intro a ha; rw [List.mem_singleton.mp ha]; exact hc)
      rw [h0]
      exact classAdd_of_mem (List.mem_append_right _ (List.mem_singleton.mpr rfl))

lemma summaryAttrsOf_idem (a0 : List (String × String)) (ls : List JVal) :
    summaryAttrsOf (summaryAttrsOf a0 ls) ls = summaryAttrsOf a0 ls := by
  unfold summaryAttrsOf
  have h1 : keyIs (assocSet (assocSet a0 ("data-label") (bestLabelOfList ls))
      ("title") (titleTextOf ls)) ("data-label") (bestLabelOfList ls) :=
    keyIs_assocSet_ne _ _ (keyIs_assocSet_self _ _ _) (by decide)
  rw [assocSet_of_keyIs h1, assocSet_idem]

lemma summaryNodeOf_idem (s0 : SummaryNode) (ls : List JVal) :
    summaryNodeOf (summaryNodeOf s0 ls) ls = summaryNodeOf s0 ls := by
  unfold summaryNodeOf
  dsimp only
  rw [summaryClassesOf_idem, summaryAttrsOf_idem]

lemma summaryApply_idem (el : Element) (ls : List JVal) :
    summaryApply (summaryApply el ls) ls = summaryApply el ls := by
  unfold summaryApply
  dsimp only
  rw [classAdd_of_mem (self_mem_classAdd el.classes contCls), Option.getD_some,
    summaryNodeOf_idem]

lemma elementApply_eq (el : Element) (ls : List JVal) :
    elementApply el ls =
      { el with
        classes := classAdd (elementClassesOf el.classes (bestLabelOfList ls)) contCls,
        attrs := assocSet el.attrs labelAttr (bestLabelOfList ls),
        summary := some (summaryNodeOf (el.summary.getD initSummary) ls) } := rfl

lemma elementApply_idem (el : Element) (ls : List JVal) :
    elementApply (elementApply el ls) ls = elementApply el ls := by
  rw [elementApply_eq el ls]
  rw [elementApply_eq]
  dsimp only
  rw [classAdd_of_mem (cont_mem_elementClassesOf el.classes (bestLabelOfList ls))]
  rw [elementClassesOf_idem, assocSet_idem, Option.getD_some, summaryNodeOf_idem]
  rw [classAdd_of_mem (cont_mem_elementClassesOf el.classes (bestLabelOfList ls))]

/-! ### Element-attribute and post-identity lemmas -/

lemma getAttrE_elSetAttr_self (el : Element) (k v : String) :
    getAttrE (elSetAttr el k v) k = some v :=
  lookupA_assocSet_self el.attrs k v

lemma getAttrE_elSetAttr_ne (el : Element) (k v k2 : String) (h : k2 ≠ k) :
    getAttrE (elSetAttr el k v) k2 = getAttrE el k2 :=
  lookupA_assocSet_ne el.attrs k k2 v h

lemma getPostId_elSetAttr (el : Element) (k v : String) (h : ("data-testid" : String) ≠ k) :
    getPostId (elSetAttr el k v) = getPostId el := by
  unfold getPostId
  rw [show (elSetAttr el k v).anchors = el.anchors from rfl]
  rw [getAttrE_elSetAttr_ne el k v ("data-testid") h]

/-! ### Stable reduce-to-max lemmas -/

lemma scoreOf_initAcc : scoreOf initAcc = some (-1) := rfl

lemma foldl_redStep_no_change :
    ∀ (xs : List JVal) (a : JVal) (sa : ℚ), scoreOf a = some sa →
      (∀ y ∈ xs, ∃ sy, scoreOf y = some sy ∧ sy ≤ sa) →
      xs.foldl redStep a = a := by
  intro xs
  induction xs with
  | nil => intros; rfl
  | cons y t ih =>
    intro a sa hsa hall
    obtain ⟨sy, hsy, hle⟩ := hall y (List.mem_cons_self y t)
    have hstep : redStep a y = a := by
      unfold redStep gtScore
      rw [hsy, hsa]
      simp [not_lt.mpr hle]
    rw [List.foldl_cons, hstep]
    exact ih a sa hsa (fun z hz => hall z (List.mem_cons_of_mem _ hz))

lemma redStep_of_lt {a x : JVal} {sa sx : ℚ} (ha : scoreOf a = some sa)
    (hx : scoreOf x = some sx) (h : sa < sx) : redStep a x = x := by
  unfold redStep gtScore
  rw [hx, ha]
  simp [h]

lemma redStep_of_le {a x : JVal} {sa sx : ℚ} (ha : scoreOf a = some sa)
    (hx : scoreOf x = some sx) (h : sx ≤ sa) : redStep a x = a := by
  unfold redStep gtScore
  rw [hx, ha]
  simp [not_lt.mpr h]

lemma foldl_redStep_mem_or_eq :
    ∀ (xs : List JVal) (a : JVal), xs.foldl redStep a = a ∨ xs.foldl redStep a ∈ xs := by
  intro xs
  induction xs with
  | nil => intro a; exact Or.inl rfl
  | cons y t ih =>
    intro a
    rw [List.foldl_cons]
    rcases ih (redStep a y) with h | h
    · rw [h]
      unfold redStep
      split
      · exact Or.inr (List.mem_cons_self y t)
      · exact Or.inl rfl
    · exact Or.inr (List.mem_cons_of_mem _ h)

/-! ### Stable two-element descending sort lemma -/

lemma sortDesc_pair (p q : String × ℚ) :
    sortDesc [p, q] = if q.2 ≤ p.2 then [p, q] else [q, p] := by
  simp [sortDesc, insDesc]

lemma sorted_pair_cases (ls : List JVal) (la lb : String)
    (h : otherLabelsOf (bestLabelOfList ls) = [la, lb]) :
    (sortedOtherLabelsOf ls = [la, lb] ∧
      smGet (scoreMapOf ls) lb ≤ smGet (scoreMapOf ls) la) ∨
    (sortedOtherLabelsOf ls = [lb, la] ∧
      smGet (scoreMapOf ls) la ≤ smGet (scoreMapOf ls) lb) := by
  unfold sortedOtherLabelsOf
  rw [h]
  simp only [List.map]
  rw [sortDesc_pair]
  by_cases hc : smGet (scoreMapOf ls) lb ≤ smGet (scoreMapOf ls) la
  · left
    rw [if_pos hc]
    exact ⟨by simp, hc⟩
  · right
    rw [if_neg hc]
    exact ⟨by simp, le_of_lt (not_le.mp hc)⟩

lemma scoreOf_mkItem (l : String) (q : ℚ) : scoreOf (mkItem l q) = some q := rfl

lemma scq_mkItem (l : String) (q : ℚ) : scq (mkItem l q) = q := rfl

/-! ### Claim theorems -/

/-- C5: every inter-context `analyze` request whose text is empty (or absent,
which reads identically through `!text`) is answered immediately with
`{error: "No text provided"}`, the cache is untouched and no network call is
issued, whatever the network would have answered. -/
theorem bg_c5 (cache : BgCache) (now : ℤ) (pid : Option String) (net : NetOut) :
    handleMessage cache now ⟨"analyze", "", pid⟩ net =
      (some (.err ("No text provided")), cache, false) := by
  unfold handleMessage
  simp

/-- C2: background-cache round trip and TTL.  (1) `put` then immediate `get`
returns the stored result unchanged; (2) once the entry's age exceeds the
120-second TTL (`ttlMs = 1000 * 60 * 2` milliseconds), `get` reads absent
even though the raw map still holds the entry (it is never removed); (3) a
request hitting such an expired entry issues a fresh network call; (4) the
page-side visual cache takes no clock at all: a stored entry is returned for
the lifetime of the session. -/
theorem cache_c2 :
    (∀ (c : BgCache) (k : String) (r : JVal) (now : ℤ),
        bgGet (assocSet c k ⟨now, r⟩) k now = some r) ∧
    (∀ (c : BgCache) (k : String) (r : JVal) (now later : ℤ),
        later - now > ttlMs →
        bgGet (assocSet c k ⟨now, r⟩) k later = none ∧
        lookupA (assocSet c k ⟨now, r⟩) k = some ⟨now, r⟩) ∧
    (∀ (cache : BgCache) (now : ℤ) (msg : Msg) (net : NetOut) (e : BgEntry),
        msg.type = "analyze" → msg.text ≠ "" →
        lookupA cache (bgKey msg.postId msg.text) = some e →
        now - e.ts > ttlMs →
        (handleMessage cache now msg net).2.2 = true) ∧
    (∀ (c : PageCache) (k : String) (ls : List JVal),
        pageGet (pagePut c k ls) k = some ls) := by
  refine ⟨?_, ?_, ?_, ?_⟩
  · intro c k r now
    unfold bgGet
    rw [lookupA_assocSet_self]
    norm_num [ttlMs]
  · intro c k r now later h
    constructor
    · unfold bgGet
      rw [lookupA_assocSet_self]
      have : ¬(later - now < ttlMs) := by omega
      simp [this]
    · exact lookupA_assocSet_self c k ⟨now, r⟩
  · intro cache now msg net e h1 h2 h3 h4
    unfold handleMessage
    rw [if_neg (by simp [h1])]
    rw [if_neg h2]
    simp only [h3]
    have : ¬(now - e.ts < ttlMs) := by omega
    rw [if_neg this]
    cases net <;> rfl
  · intro c k ls
    exact lookupA_assocSet_self c k ls

set_option maxRecDepth 4000 in
/-- C2 witness: concrete put/get round trip, TTL expiry at 120 001 ms, a fresh
fetch on an expired entry, and a page-side hit. -/
theorem cache_c2_witness :
    bgGet (assocSet ([] : BgCache) ("k") ⟨0, .str ("v")⟩) ("k") 0 = some (.str ("v")) ∧
    (bgGet (assocSet ([] : BgCache) ("k") ⟨0, .str ("v")⟩) ("k") 120001 = none ∧
      lookupA (assocSet ([] : BgCache) ("k") ⟨0, .str ("v")⟩) ("k") =
        some ⟨0, .str ("v")⟩) ∧
    (handleMessage [(("p:t"), ⟨0, .str ("v")⟩)] 130000 ⟨"analyze", "t", some ("p")⟩
        (.ok (.str ("w")))).2.2 = true ∧
    pageGet (pagePut ([] : PageCache) ("k") [.str ("v")]) ("k") = some [.str ("v")] :=
  ⟨cache_c2.1 [] ("k") (.str ("v")) 0,
   cache_c2.2.1 [] ("k") (.str ("v")) 0 120001 (by norm_num [ttlMs]),
   cache_c2.2.2.1 [(("p:t"), ⟨0, .str ("v")⟩)] 130000 ⟨"analyze", "t", some ("p")⟩
     (.ok (.str ("w"))) ⟨0, .str ("v")⟩ rfl (by decide) rfl (by norm_num [ttlMs]),
   cache_c2.2.2.2 [] ("k") [.str ("v")]⟩

/-- C10 counterexample: the non-empty array `[1]` is not an array of scores,
yet `applySentimentToElement` is not a no-op on it — the reduce falls back to
the seed, the label falls back to `neutral`, and the neutral styling is
applied.  This refutes the claim as stated («any value that is not a
non-empty array *of scores* is a complete no-op»). -/
theorem render_c10_counterexample :
    applySentimentToElement ⟨[], [], none, [], [], ""⟩ (.arr [.num 1]) ≠
      ⟨[], [], none, [], [], ""⟩ := fun h =>
  absurd (congrArg Element.classes h) (by decide)

/-- C10 amended: calling either render operation with a value that is not an
array, or with an empty array, is a complete no-op on the element. -/
theorem render_c10 (el : Element) (v : JVal) (h : isNonemptyArr v = false) :
    applySentimentToElement el v = el ∧ applySentimentSummary el v = el := by
  cases v with
  | arr ls =>
    cases ls with
    | nil => exact ⟨rfl, rfl⟩
    | cons x xs => simp [isNonemptyArr] at h
  | null => exact ⟨rfl, rfl⟩
  | bool b => exact ⟨rfl, rfl⟩
  | num q => exact ⟨rfl, rfl⟩
  | str s => exact ⟨rfl, rfl⟩
  | obj fs => exact ⟨rfl, rfl⟩

/-- C10 witness: the render operations leave a concrete element untouched on
the non-array input `null`. -/
theorem render_c10_witness :
    applySentimentToElement ⟨[], [], none, [], [], ""⟩ .null = ⟨[], [], none, [], [], ""⟩ ∧
    applySentimentSummary ⟨[], [], none, [], [], ""⟩ .null = ⟨[], [], none, [], [], ""⟩ :=
  render_c10 ⟨[], [], none, [], [], ""⟩ .null rfl

/-- C1: (1) a singly-nested payload `[[…items…]]` is flattened exactly one
level and then filtered, and the callback produces exactly the same element
and cache as for the flat payload `[…items…]`; (2) whenever the list left
after flattening and filtering is empty, the element is only marked `done` —
no annotation, no error marker, no cache entry. -/
theorem client_c1 :
    (∀ (el : Element) (cache : PageCache) (pid : Option String) (text : String)
        (c : Bool) (y : JVal) (ys : List JVal),
        (∀ z ∈ y :: ys, isArrB z = false) →
        handleAnalyzeResponse el cache pid text
            (some (.res (.arr [.arr (y :: ys)]) c)) =
          handleAnalyzeResponse el cache pid text (some (.res (.arr (y :: ys)) c))) ∧
    (∀ (el : Element) (cache : PageCache) (pid : Option String) (text : String)
        (c : Bool) (r : JVal), afterNorm r = [] →
        handleAnalyzeResponse el cache pid text (some (.res r c)) =
          (elSetAttr el markerAttr ("done"), cache)) := by
  constructor
  · intro el cache pid text c y ys hflat
    have h2 : isArrB y = false := hflat y (List.mem_cons_self y ys)
    show renderScores el cache pid text
        ((if isArrB (JVal.arr (y :: ys)) then jsFlat [JVal.arr (y :: ys)]
          else [JVal.arr (y :: ys)]).filter keepItem) =
      renderScores el cache pid text
        ((if isArrB y then jsFlat (y :: ys) else y :: ys).filter keepItem)
    congr 1
    rw [show isArrB (JVal.arr (y :: ys)) = true from rfl, h2]
    simp [jsFlat]
  · intro el cache pid text c r hnorm
    cases r with
    | arr ls =>
      cases ls with
      | nil => rfl
      | cons x xs =>
        have hls : (if isArrB x then jsFlat (x :: xs) else x :: xs).filter keepItem
            = [] := hnorm
        show renderScores el cache pid text
            ((if isArrB x then jsFlat (x :: xs) else x :: xs).filter keepItem) = _
        rw [hls]
        rfl
    | null => rfl
    | bool b => rfl
    | num q => rfl
    | str s => rfl
    | obj fs => rfl

/-- C1 witness: the nested payload `[[{positive, 0.9}]]` is processed exactly
like the flat `[{positive, 0.9}]`, and the empty payload `[]` just marks the
element done. -/
theorem client_c1_witness :
    handleAnalyzeResponse demoEl [] none ("t")
        (some (.res (.arr [.arr [demoItem]]) false)) =
      handleAnalyzeResponse demoEl [] none ("t")
        (some (.res (.arr [demoItem]) false)) ∧
    handleAnalyzeResponse demoEl [] none ("t")
        (some (.res (.arr ([] : List JVal)) false)) =
      (elSetAttr demoEl markerAttr ("done"), []) :=
  ⟨client_c1.1 demoEl [] none ("t") false demoItem []
      (by intro z hz; rw [List.mem_singleton.mp hz]; rfl),
   client_c1.2 demoEl [] none ("t") false (.arr []) rfl⟩

/-- C4: transport failures and non-2xx responses are handled, not fatal.
Background side: on a cache miss the HTTP-error and transport-error outcomes
answer `{error: …}` with the cache unchanged (no entry is created) while a
call was issued.  Content side: an error response appends the ERR marker and
transitions the element to `done`; the ERR marker carries none of the three
sentiment classes; the element's own class list is untouched; and no page
cache entry is written.  Terminality: a subsequent scan pass over the errored
element issues no request whatever the page cache holds. -/
theorem error_c4 :
    (∀ (cache : BgCache) (now : ℤ) (msg : Msg) (st : ℕ) (body : String),
        msg.type = "analyze" → msg.text ≠ "" →
        bgGet cache (bgKey msg.postId msg.text) now = none →
        handleMessage cache now msg (.httpErr st body) =
          (some (.err ("Error: HTTP " ++ toString st ++ ": " ++ body)), cache, true)) ∧
    (∀ (cache : BgCache) (now : ℤ) (msg : Msg) (s : String),
        msg.type = "analyze" → msg.text ≠ "" →
        bgGet cache (bgKey msg.postId msg.text) now = none →
        handleMessage cache now msg (.transportErr s) = (some (.err s), cache, true)) ∧
    (∀ (el : Element) (cache : PageCache) (pid : Option String) (text e : String),
        handleAnalyzeResponse el cache pid text (some (.err e)) =
          (elSetAttr (appendErrUi el) markerAttr ("done"), cache)) ∧
    (errUiNode.classes = [uiCls, "ps-inline"] ∧
      psPos ∉ errUiNode.classes ∧ psNeut ∉ errUiNode.classes ∧
      psNeg ∉ errUiNode.classes ∧
      lookupA errUiNode.attrs ("data-label") = some ("ERR")) ∧
    (∀ el : Element,
        (elSetAttr (appendErrUi el) markerAttr ("done")).classes = el.classes) ∧
    (∀ (el : Element) (cache cache2 : PageCache) (pid : Option String) (text e : String),
        ((processPostStep cache2
            (handleAnalyzeResponse el cache pid text (some (.err e))).1).2).count
          ScanAct.sendReq = 0) := by
  have hbg : ∀ (cache : BgCache) (now : ℤ) (msg : Msg) (net : NetOut),
      msg.type = "analyze" → msg.text ≠ "" →
      bgGet cache (bgKey msg.postId msg.text) now = none →
      handleMessage cache now msg net = bgFetch cache now (bgKey msg.postId msg.text) net := by
    intro cache now msg net h1 h2 h3
    unfold handleMessage
    rw [if_neg (by simp [h1])]
    rw [if_neg h2]
    unfold bgGet at h3
    cases hl : lookupA cache (bgKey msg.postId msg.text) with
    | none => simp only [hl]
    | some e =>
      simp only [hl] at h3
      have hfr : ¬(now - e.ts < ttlMs) := by
        intro hlt
        rw [if_pos hlt] at h3
        cases h3
      simp only [hl]
      rw [if_neg hfr]
  refine ⟨?_, ?_, ?_, ?_, ?_, ?_⟩
  · intro cache now msg st body h1 h2 h3
    rw [hbg cache now msg _ h1 h2 h3]
    rfl
  · intro cache now msg s h1 h2 h3
    rw [hbg cache now msg _ h1 h2 h3]
    rfl
  · intro el cache pid text e
    rfl
  · refine ⟨rfl, by decide, by decide, by decide, rfl⟩
  · intro el
    rfl
  · intro el cache cache2 pid text e
    show (processPostStep cache2 (elSetAttr (appendErrUi el) markerAttr ("done"))).2.count
        ScanAct.sendReq = 0
    unfold processPostStep
    split
    · rfl
    · split
      · rfl
      · split
        · rfl
        · rename_i hdone
          exact absurd (getAttrE_elSetAttr_self (appendErrUi el) markerAttr ("done")) hdone

/-- C4 witness: status 500 with body "server error" on an empty cache yields
the stringified `Error: HTTP 500: server error`, an unchanged cache and an
issued call; the content-side error path and its terminality at a concrete
element. -/
theorem error_c4_witness :
    handleMessage [] 0 ⟨"analyze", "t", none⟩ (.httpErr 500 ("server error")) =
      (some (.err ("Error: HTTP " ++ toString 500 ++ ": " ++ "server error")), [], true) ∧
    handleAnalyzeResponse demoEl [] none ("t") (some (.err ("boom"))) =
      (elSetAttr (appendErrUi demoEl) markerAttr ("done"), []) ∧
    ((processPostStep []
        (handleAnalyzeResponse demoEl [] none ("t") (some (.err ("boom")))).1).2).count
      ScanAct.sendReq = 0 :=
  ⟨error_c4.1 [] 0 ⟨"analyze", "t", none⟩ 500 ("server error") rfl (by decide) rfl,
   error_c4.2.2.1 demoEl [] none ("t") ("boom"),
   error_c4.2.2.2.2.2 demoEl [] [] none ("t") ("boom")⟩

/-- C3: before the classification request is issued the element is marked
`pending` (the scan trace is literally `[setPending, sendReq]`, in that
order), a scan pass over a `pending` or `done` element issues nothing, and
hence two passes over the same unresolved, uncached post issue exactly one
request. -/
theorem dedup_c3 (cache : PageCache) (el : Element)
    (htext : el.tweetText ≠ "")
    (hmiss : pageGet cache (cacheKeyFor (getPostId el) el.tweetText) = none)
    (hp : getAttrE el markerAttr ≠ some ("pending"))
    (hd : getAttrE el markerAttr ≠ some ("done")) :
    (processPostStep cache el).2 = [ScanAct.setPending, ScanAct.sendReq] ∧
    getAttrE (processPostStep cache el).1 markerAttr = some ("pending") ∧
    (processPostStep cache (processPostStep cache el).1).2 = [] ∧
    ((processPostStep cache el).2 ++
        (processPostStep cache (processPostStep cache el).1).2).count
      ScanAct.sendReq = 1 := by
  have hstep : processPostStep cache el =
      (elSetAttr el markerAttr ("pending"), [ScanAct.setPending, ScanAct.sendReq]) := by
    unfold processPostStep
    rw [if_neg htext]
    simp only [hmiss]
    rw [if_neg hd]
    unfold analyzeAndShowStep
    rw [if_neg (by rintro (h | h); exacts [hp h, hd h])]
  have hm1 : getAttrE (elSetAttr el markerAttr ("pending")) markerAttr =
      some ("pending") := getAttrE_elSetAttr_self el markerAttr ("pending")
  have hstep2 : processPostStep cache (elSetAttr el markerAttr ("pending")) =
      (elSetAttr el markerAttr ("pending"), []) := by
    unfold processPostStep
    rw [show (elSetAttr el markerAttr ("pending")).tweetText = el.tweetText from rfl]
    rw [if_neg htext]
    rw [getPostId_elSetAttr el markerAttr ("pending") (by decide)]
    simp only [hmiss]
    rw [if_neg (by rw [hm1]; simp)]
    unfold analyzeAndShowStep
    rw [if_pos (Or.inl hm1)]
  refine ⟨by rw [hstep], ?_, ?_, ?_⟩
  · rw [hstep]
    exact hm1
  · rw [hstep]
    rw [hstep2]
  · rw [hstep]
    rw [hstep2]
    dsimp only
    decide

/-- C3 witness: two passes over a fresh element with text "hi" and an empty
cache; the first pass marks pending then sends, the second is silent. -/
theorem dedup_c3_witness :
    (processPostStep [] demoEl).2 = [ScanAct.setPending, ScanAct.sendReq] ∧
    getAttrE (processPostStep [] demoEl).1 markerAttr = some ("pending") ∧
    (processPostStep [] (processPostStep [] demoEl).1).2 = [] ∧
    ((processPostStep [] demoEl).2 ++
        (processPostStep [] (processPostStep [] demoEl).1).2).count
      ScanAct.sendReq = 1 :=
  dedup_c3 [] demoEl (by decide) rfl (by decide) (by decide)

lemma jsAttrOrNull_ne_empty {o : Option String} {p : String}
    (h : jsAttrOrNull o = some p) : p ≠ "" := by
  cases o with
  | none => cases h
  | some s =>
    simp only [jsAttrOrNull] at h
    split_ifs at h with h1
    exact (Option.some.inj h) ▸ h1

lemma findStatusId_ne_nil :
    ∀ (l : List Char) (ds : List Char), findStatusId l = some ds → ds ≠ [] := by
  intro l
  induction l with
  | nil =>
    intro ds h
    simp [findStatusId] at h
  | cons c t ih =>
    intro ds h
    simp only [findStatusId] at h
    split_ifs at h with h1 h2
    · exact ih ds h
    · injection h with h3
      subst h3
      intro hnil
      rw [hnil] at h2
      exact h2 rfl
    · exact ih ds h

lemma getPostId_ne_empty (el : Element) (p : String) (h : getPostId el = some p) :
    p ≠ "" := by
  unfold getPostId at h
  split at h
  · split at h
    · rename_i ds hds
      injection h with h2
      subst h2
      intro hc
      exact findStatusId_ne_nil _ ds hds (congrArg String.data hc)
    · exact jsAttrOrNull_ne_empty h
  · exact jsAttrOrNull_ne_empty h

/-- C9: the page-side cache key is `id:` plus the extracted stable identifier
whenever one exists (and such an identifier is never the empty string), and
otherwise `text:` plus the 200-character prefix of the extracted text; the
identifier itself comes from the numeric id of the first `/status/` permalink
with `data-testid` as secondary fallback; and two elements with the same
anchors, attributes and text derive the same key in the page-side and the
background-side cache alike. -/
theorem identity_c9 :
    (∀ (el : Element) (p : String) (text : String), getPostId el = some p →
        p ≠ "" ∧ cacheKeyFor (getPostId el) text = "id:" ++ p) ∧
    (∀ (el : Element) (text : String), getPostId el = none →
        cacheKeyFor (getPostId el) text = "text:" ++ text.take 200) ∧
    (∀ (el : Element) (href : String) (ds : List Char),
        el.anchors.find? (fun h => hasSubstr h ("/status/")) = some href →
        findStatusId href.data = some ds →
        getPostId el = some (String.mk ds)) ∧
    (∀ el : Element,
        el.anchors.find? (fun h => hasSubstr h ("/status/")) = none →
        getPostId el = jsAttrOrNull (getAttrE el ("data-testid"))) ∧
    (∀ e1 e2 : Element, e1.anchors = e2.anchors → e1.attrs = e2.attrs →
        e1.tweetText = e2.tweetText →
        getPostId e1 = getPostId e2 ∧
        cacheKeyFor (getPostId e1) e1.tweetText =
          cacheKeyFor (getPostId e2) e2.tweetText ∧
        bgKey (getPostId e1) e1.tweetText = bgKey (getPostId e2) e2.tweetText) := by
  refine ⟨?_, ?_, ?_, ?_, ?_⟩
  · intro el p text h
    refine ⟨getPostId_ne_empty el p h, ?_⟩
    rw [h]
    simp only [cacheKeyFor]
    rw [if_neg (getPostId_ne_empty el p h)]
  · intro el text h
    rw [h]
    rfl
  · intro el href ds h1 h2
    unfold getPostId
    simp only [h1, h2]
  · intro el h
    unfold getPostId
    simp only [h]
  · intro e1 e2 ha hat ht
    have hid : getPostId e1 = getPostId e2 := by
      unfold getPostId getAttrE
      rw [ha, hat]
    exact ⟨hid, by rw [hid, ht], by rw [hid, ht]⟩

/-- C9 witness: an element whose anchor `/a/status/12345` carries the id
`12345` keys as `id:12345`; everything evaluated concretely. -/
theorem identity_c9_witness :
    (("12345" : String) ≠ "" ∧
      cacheKeyFor (getPostId ⟨[], [(("data-testid"), "tw")], none, [],
        ["/a/status/12345"], "hello"⟩) ("hello") = "id:" ++ "12345") ∧
    getPostId ⟨[], [(("data-testid"), "tw")], none, [], ["/a/status/12345"], "hello"⟩ =
      some (String.mk ['1', '2', '3', '4', '5']) :=
  ⟨identity_c9.1 ⟨[], [(("data-testid"), "tw")], none, [], ["/a/status/12345"], "hello"⟩
      ("12345") ("hello") rfl,
   identity_c9.2.2.1 ⟨[], [(("data-testid"), "tw")], none, [], ["/a/status/12345"], "hello"⟩
      ("/a/status/12345") ['1', '2', '3', '4', '5'] rfl rfl⟩

/-- C8: rendering is idempotent — applying `applySentimentToElement` (or
`applySentimentSummary`) twice with the same value leaves exactly the state
of a single application: same classes, same attributes, same summary child,
and no duplicated UI node (the summary child is found and rewritten, not
re-created). -/
theorem render_c8 (el : Element) (v : JVal) (hnn : noNullItems v) :
    applySentimentToElement (applySentimentToElement el v) v =
      applySentimentToElement el v ∧
    applySentimentSummary (applySentimentSummary el v) v =
      applySentimentSummary el v := by
  cases v with
  | arr ls =>
    cases ls with
    | nil => exact ⟨rfl, rfl⟩
    | cons x xs =>
      exact ⟨elementApply_idem el (x :: xs), summaryApply_idem el (x :: xs)⟩
  | null => exact ⟨rfl, rfl⟩
  | bool b => exact ⟨rfl, rfl⟩
  | num q => exact ⟨rfl, rfl⟩
  | str s => exact ⟨rfl, rfl⟩
  | obj fs => exact ⟨rfl, rfl⟩

/-- C8 witness: double render of `[{positive, 0.9}]` on a concrete element. -/
theorem render_c8_witness :
    applySentimentToElement (applySentimentToElement demoEl (.arr [demoItem]))
        (.arr [demoItem]) =
      applySentimentToElement demoEl (.arr [demoItem]) ∧
    applySentimentSummary (applySentimentSummary demoEl (.arr [demoItem]))
        (.arr [demoItem]) =
      applySentimentSummary demoEl (.arr [demoItem]) :=
  render_c8 demoEl (.arr [demoItem]) (by simp [noNullItems, demoItem, mkItem])

/-- C6: the best-label reduce is a stable reduce-to-max.  If a score list
splits as `pre ++ x :: suf` where every item carries a numeric score, `x`'s
score is non-negative (scores are probabilities), everything before `x` is
strictly below `x`, and nothing in the list exceeds `x`, then the reduce
selects exactly `x` — the first item attaining the maximal score, regardless
of any ordering on the labels. -/
theorem best_c6 (pre suf : List JVal) (x : JVal)
    (hnum : ∀ y ∈ pre ++ x :: suf, (scoreOf y).isSome = true)
    (hx0 : 0 ≤ scq x)
    (hpre : ∀ p ∈ pre, scq p < scq x)
    (hmax : ∀ y ∈ pre ++ x :: suf, scq y ≤ scq x) :
    bestOf (pre ++ x :: suf) = x := by
  obtain ⟨sx, hsx⟩ := Option.isSome_iff_exists.mp
    (hnum x (List.mem_append_right pre (List.mem_cons_self x suf)))
  have hscqx : scq x = sx := by simp [scq, hsx]
  unfold bestOf
  rw [List.foldl_append]
  have hr : ∃ sr, scoreOf (pre.foldl redStep initAcc) = some sr ∧ sr < sx := by
    rcases foldl_redStep_mem_or_eq pre initAcc with h | h
    · refine ⟨-1, by rw [h]; rfl, ?_⟩
      have : (0 : ℚ) ≤ sx := hscqx ▸ hx0
      linarith
    · obtain ⟨sr, hsr⟩ := Option.isSome_iff_exists.mp
        (hnum _ (List.mem_append_left _ h))
      refine ⟨sr, hsr, ?_⟩
      have := hpre _ h
      rw [hscqx] at this
      simpa [scq, hsr] using this
  obtain ⟨sr, hsr, hlt⟩ := hr
  rw [List.foldl_cons]
  rw [redStep_of_lt hsr hsx hlt]
  refine foldl_redStep_no_change suf x sx hsx ?_
  intro y hy
  obtain ⟨sy, hsy⟩ := Option.isSome_iff_exists.mp
    (hnum y (List.mem_append_right pre (List.mem_cons_of_mem x hy)))
  refine ⟨sy, hsy, ?_⟩
  have := hmax y (List.mem_append_right pre (List.mem_cons_of_mem x hy))
  rw [hscqx] at this
  simpa [scq, hsy] using this

/-- C6 witness: on the tie `[{positive, 0.5}, {negative, 0.5}]` the reduce
selects the first-encountered item — `positive`, which is alphabetically
after `negative`, so the tie-break is positional, not alphabetical. -/
theorem best_c6_witness :
    bestOf [mkItem ("positive") (1/2), mkItem ("negative") (1/2)] =
      mkItem ("positive") (1/2) :=
  best_c6 [] [mkItem ("negative") (1/2)] (mkItem ("positive") (1/2))
    (by
      intro y hy
      simp only [List.nil_append, List.mem_cons, List.mem_singleton] at hy
      rcases hy with rfl | rfl | h
      · rfl
      · rfl
      · cases h)
    (by rw [scq_mkItem]; norm_num)
    (by intro p hp; cases hp)
    (by
      intro y hy
      simp only [List.nil_append, List.mem_cons, List.mem_singleton] at hy
      rcases hy with rfl | rfl | h
      · exact le_refl _
      · rw [scq_mkItem, scq_mkItem]
      · cases h)

/-- C7: in every rendered summary whose winner is one of the three sentiment
labels, the non-winning labels come out sorted descending by their score-map
value — the second-most-likely label is printed first — and the summary text
is the winner's entry followed by those two entries in exactly that order. -/
theorem summary_c7 (el : Element) (x : JVal) (xs : List JVal)
    (hb : bestLabelOfList (x :: xs) ∈ threeLabels) :
    ∃ l1 l2,
      sortedOtherLabelsOf (x :: xs) = [l1, l2] ∧
      l1 ∈ threeLabels ∧ l2 ∈ threeLabels ∧
      l1 ≠ bestLabelOfList (x :: xs) ∧ l2 ≠ bestLabelOfList (x :: xs) ∧
      l1 ≠ l2 ∧
      smGet (scoreMapOf (x :: xs)) l2 ≤ smGet (scoreMapOf (x :: xs)) l1 ∧
      otherStrOf (x :: xs) =
        otherEntry (x :: xs) l1 ++ " • " ++ otherEntry (x :: xs) l2 ∧
      (applySentimentSummary el (.arr (x :: xs))).summary =
        some ⟨summaryClassesOf ((el.summary.getD initSummary).classes)
                (bestLabelOfList (x :: xs)),
              summaryAttrsOf ((el.summary.getD initSummary).attrs) (x :: xs),
              dispOf (bestLabelOfList (x :: xs)) ++ " " ++ bestPctStrOf (x :: xs)
                ++ "%\n" ++ otherStrOf (x :: xs)⟩ := by
  have h3 : bestLabelOfList (x :: xs) = "negative" ∨
      bestLabelOfList (x :: xs) = "neutral" ∨
      bestLabelOfList (x :: xs) = "positive" := by
    simpa [threeLabels] using hb
  rcases h3 with hbl | hbl | hbl
  · rcases sorted_pair_cases (x :: xs) ("neutral") ("positive")
        (by rw [hbl]; rfl) with ⟨hs, hle⟩ | ⟨hs, hle⟩
    · refine ⟨"neutral", "positive", hs, by decide, by decide, ?_, ?_, by decide,
        hle, ?_, rfl⟩
      · rw [hbl]; decide
      · rw [hbl]; decide
      · unfold otherStrOf
        rw [hs]
        rfl
    · refine ⟨"positive", "neutral", hs, by decide, by decide, ?_, ?_, by decide,
        hle, ?_, rfl⟩
      · rw [hbl]; decide
      · rw [hbl]; decide
      · unfold otherStrOf
        rw [hs]
        rfl
  · rcases sorted_pair_cases (x :: xs) ("negative") ("positive")
        (by rw [hbl]; rfl) with ⟨hs, hle⟩ | ⟨hs, hle⟩
    · refine ⟨"negative", "positive", hs, by decide, by decide, ?_, ?_, by decide,
        hle, ?_, rfl⟩
      · rw [hbl]; decide
      · rw [hbl]; decide
      · unfold otherStrOf
        rw [hs]
        rfl
    · refine ⟨"positive", "negative", hs, by decide, by decide, ?_, ?_, by decide,
        hle, ?_, rfl⟩
      · rw [hbl]; decide
      · rw [hbl]; decide
      · unfold otherStrOf
        rw [hs]
        rfl
  · rcases sorted_pair_cases (x :: xs) ("negative") ("neutral")
        (by rw [hbl]; rfl) with ⟨hs, hle⟩ | ⟨hs, hle⟩
    · refine ⟨"negative", "neutral", hs, by decide, by decide, ?_, ?_, by decide,
        hle, ?_, rfl⟩
      · rw [hbl]; decide
      · rw [hbl]; decide
      · unfold otherStrOf
        rw [hs]
        rfl
    · refine ⟨"neutral", "negative", hs, by decide, by decide, ?_, ?_, by decide,
        hle, ?_, rfl⟩
      · rw [hbl]; decide
      · rw [hbl]; decide
      · unfold otherStrOf
        rw [hs]
        rfl

/-- C7 witness: the spec's example — neutral 60 %, positive 25 %, negative
15 % — instantiated through the theorem (positive, the second-most-likely
label, precedes negative). -/
theorem summary_c7_witness :
    ∃ l1 l2,
      sortedOtherLabelsOf
          [mkItem ("neutral") (3/5), mkItem ("positive") (1/4),
            mkItem ("negative") (3/20)] = [l1, l2] ∧
      l1 ∈ threeLabels ∧ l2 ∈ threeLabels ∧
      l1 ≠ bestLabelOfList [mkItem ("neutral") (3/5), mkItem ("positive") (1/4),
        mkItem ("negative") (3/20)] ∧
      l2 ≠ bestLabelOfList [mkItem ("neutral") (3/5), mkItem ("positive") (1/4),
        mkItem ("negative") (3/20)] ∧
      l1 ≠ l2 ∧
      smGet (scoreMapOf [mkItem ("neutral") (3/5), mkItem ("positive") (1/4),
          mkItem ("negative") (3/20)]) l2 ≤
        smGet (scoreMapOf [mkItem ("neutral") (3/5), mkItem ("positive") (1/4),
          mkItem ("negative") (3/20)]) l1 ∧
      otherStrOf [mkItem ("neutral") (3/5), mkItem ("positive") (1/4),
          mkItem ("negative") (3/20)] =
        otherEntry [mkItem ("neutral") (3/5), mkItem ("positive") (1/4),
            mkItem ("negative") (3/20)] l1 ++ " • " ++
          otherEntry [mkItem ("neutral") (3/5), mkItem ("positive") (1/4),
            mkItem ("negative") (3/20)] l2 ∧
      (applySentimentSummary demoEl
          (.arr [mkItem ("neutral") (3/5), mkItem ("positive") (1/4),
            mkItem ("negative") (3/20)])).summary =
        some ⟨summaryClassesOf ((demoEl.summary.getD initSummary).classes)
                (bestLabelOfList [mkItem ("neutral") (3/5), mkItem ("positive") (1/4),
                  mkItem ("negative") (3/20)]),
              summaryAttrsOf ((demoEl.summary.getD initSummary).attrs)
                [mkItem ("neutral") (3/5), mkItem ("positive") (1/4),
                  mkItem ("negative") (3/20)],
              dispOf (bestLabelOfList [mkItem ("neutral") (3/5),
                  mkItem ("positive") (1/4), mkItem ("negative") (3/20)]) ++ " " ++
                bestPctStrOf [mkItem ("neutral") (3/5), mkItem ("positive") (1/4),
                  mkItem ("negative") (3/20)] ++ "%\n" ++
                otherStrOf [mkItem ("neutral") (3/5), mkItem ("positive") (1/4),
                  mkItem ("negative") (3/20)]⟩ := by
  have h1 : bestOf [mkItem ("neutral") (3/5), mkItem ("positive") (1/4),
      mkItem ("negative") (3/20)] = mkItem ("neutral") (3/5) := by
    unfold bestOf
    simp only [List.foldl_cons, List.foldl_nil]
    rw [redStep_of_lt (show scoreOf initAcc = some (-1) from rfl)
      (scoreOf_mkItem ("neutral") (3/5)) (by norm_num)]
    rw [redStep_of_le (scoreOf_mkItem ("neutral") (3/5))
      (scoreOf_mkItem ("positive") (1/4)) (by norm_num)]
    rw [redStep_of_le (scoreOf_mkItem ("neutral") (3/5))
      (scoreOf_mkItem ("negative") (3/20)) (by norm_num)]
  exact summary_c7 demoEl (mkItem ("neutral") (3/5))
    [mkItem ("positive") (1/4), mkItem ("negative") (3/20)]
    (by unfold bestLabelOfList; rw [h1]; decide)

end SocialSentiment
